import Mathlib

/-
  Verification of the CO2 sample ingestion / cache subsystem of the
  weather_station repository (src/co2_samples.py and the older revision of
  the same logic in src/check_weather.py).

  Shallow embedding conventions:
  * Python `str` values are modelled as `List Char` (`Str`); `String` literals
    are converted at the boundary with `str`.
  * `str.split(sep)` with a one-character separator is `splitChar`;
    `str.strip()` is `pyStrip` (ASCII whitespace class).
  * Python `float` values are modelled by the literal text accepted by
    `float(...)` (`PyFloat`); this is faithful for round-trip claims because
    in Python `float(repr(x)) == x` holds exactly, and `repr` is injective
    on floats.  The literal grammar modelled is the usual decimal/exponent
    grammar; exotic forms (inf/nan, underscores) are omitted, which only
    narrows the set of accepted inputs, never changes behaviour on the
    canonical representations the cache writer emits.
  * `datetime` values are a record of wall-clock fields plus an optional
    zone tag (`none` = timezone-naive, as produced by a bare
    `datetime.strptime`); `replace(tzinfo=NYC)` sets the tag.
  * `datetime.strptime(s, "%d/%m/%Y %H:%M:%S (%Z)")` is `strptimeDMYHMS`.
    The `%Z` token matches the platform-known zone abbreviations; we model
    the accepted set as EST/EDT/UTC/GMT (the names available on the
    Eastern-localized deployment host the code targets).  Whitespace runs in
    the format are modelled as single spaces.
  * `datetime.strftime` over the same format is `strftimeDMYHMS`; numeric
    fields are zero-padded, which is faithful on every value a validated
    datetime can hold (all sub-year fields are < 100, year ≤ 9999).  The
    EST/EDT choice follows the US DST rule at day granularity (the 2 a.m.
    transition hour is abstracted; no claim depends on it).
  * The cache directory is a record `FS`: an association list of file names
    to contents plus a directory-exists flag.  File sizes are byte counts;
    cache content is ASCII, so `List.length` is the byte size.
  * Network fetch: the refresh model takes the successfully fetched blob as
    an argument (the fetch-error early return leaves the state untouched and
    is not needed by the claims).
-/

abbrev Str := List Char

def str (s : String) : Str := s.data

/-- The character class stripped by Python `str.strip()` (ASCII whitespace). -/
def pySpace (c : Char) : Bool :=
  [' ', '\t', '\n', '\r', Char.ofNat 11, Char.ofNat 12].contains c

/-- Python `s.split(sep)` for a single-character separator: keeps empty
fields, `"".split(sep) == [""]`. -/
def splitChar (sep : Char) : Str → List Str
  | [] => [[]]
  | c :: rest =>
    let r := splitChar sep rest
    if c = sep then [] :: r
    else
      match r with
      | [] => [[c]]
      | f :: fs => (c :: f) :: fs

/-- Python `s.strip()`. -/
def pyStrip (l : Str) : Str :=
  ((l.dropWhile pySpace).reverse.dropWhile pySpace).reverse

def digitVal (c : Char) : Nat := c.toNat - 48

def digitsToNat (l : Str) : Nat := l.foldl (fun a c => a * 10 + digitVal c) 0

/-- A run of 1 to `k` decimal digits, as matched by the `strptime` regular
expressions (`%d`,`%m`,`%H`,`%M`,`%S`: k = 2; `%Y`: k = 4).  Range
constraints are checked afterwards, exactly as the combination of the
`_strptime` regex and the `datetime(...)` constructor does. -/
def parseNatUpTo (k : Nat) (l : Str) : Option Nat :=
  if l ≠ [] ∧ l.length ≤ k ∧ l.all (fun c => c.isDigit) then some (digitsToNat l) else none

def splitDigits (l : Str) : Str × Str := (l.takeWhile Char.isDigit, l.dropWhile Char.isDigit)

def dropSign : Str → Str
  | '+' :: r => r
  | '-' :: r => r
  | l => l

/-- The decimal literal grammar accepted by Python `float(...)`:
`[sign] (digits [. digits] | . digits) [(e|E) [sign] digits]`. -/
def isFloatLit (l : Str) : Bool :=
  let l1 := dropSign l
  let p1 := splitDigits l1
  let p2 : Str × Str :=
    match p1.2 with
    | '.' :: r => splitDigits r
    | _ => ([], p1.2)
  if p1.1.isEmpty && p2.1.isEmpty then false
  else
    match p2.2 with
    | [] => true
    | e :: r3 =>
      if e = 'e' ∨ e = 'E' then
        let p3 := splitDigits (dropSign r3)
        !p3.1.isEmpty && p3.2.isEmpty
      else false

/-- A Python float, identified with its literal text (see header comment). -/
structure PyFloat where
  lit : Str
deriving DecidableEq, Repr

/-- Python `float(s)`: strips surrounding whitespace, then requires a float
literal; raising `ValueError` is modelled as `none`. -/
def pyFloatOfString (l : Str) : Option PyFloat :=
  let t := pyStrip l
  if isFloatLit t then some ⟨t⟩ else none

/-- The only zone the program ever anchors to: `tz.gettz('America/New_York')`. -/
inductive Zone
  | nyc
deriving DecidableEq, Repr

structure Datetime where
  year : Nat
  month : Nat
  day : Nat
  hour : Nat
  minute : Nat
  second : Nat
  tz : Option Zone
deriving DecidableEq, Repr

/-- Zeller's congruence; returns 0 = Saturday, 1 = Sunday, …, 6 = Friday. -/
def zellerDow (y m d : Nat) : Nat :=
  let y' := if m < 3 then y - 1 else y
  let m' := if m < 3 then m + 12 else m
  (d + 13 * (m' + 1) / 5 + y' % 100 + y' % 100 / 4 + y' / 100 / 4 + 5 * (y' / 100)) % 7

def firstSundayFrom (y m d : Nat) : Nat :=
  match (List.range 7).find? (fun i => zellerDow y m (d + i) == 1) with
  | some i => d + i
  | none => d

/-- US daylight-saving rule for America/New_York at day granularity:
DST from the second Sunday of March through the day before the first
Sunday of November. -/
def isNycDST (dt : Datetime) : Bool :=
  if 4 ≤ dt.month ∧ dt.month ≤ 10 then true
  else if dt.month = 3 then decide (firstSundayFrom dt.year 3 8 ≤ dt.day)
  else if dt.month = 11 then decide (dt.day < firstSundayFrom dt.year 11 1)
  else false

/-- `%Z` as rendered by `strftime`: empty for a naive datetime, EST/EDT for
an America/New_York-anchored one. -/
def tzAbbrevChars (dt : Datetime) : Str :=
  match dt.tz with
  | none => []
  | some Zone.nyc => if isNycDST dt then str "EDT" else str "EST"

def isLeapYear (y : Nat) : Bool := (y % 4 == 0 && y % 100 != 0) || y % 400 == 0

def daysInMonth (y m : Nat) : Nat :=
  if m = 2 then (if isLeapYear y then 29 else 28)
  else if m = 4 ∨ m = 6 ∨ m = 9 ∨ m = 11 then 30
  else 31

/-- Strips one layer of parentheses: `(EST)` ↦ `EST`. -/
def unparen (l : Str) : Option Str :=
  match l with
  | '(' :: rest =>
    match rest.reverse with
    | ')' :: mid => some mid.reverse
    | _ => none
  | _ => none

/-- The `%Z` abbreviations `_strptime` recognises on the deployment host. -/
def acceptedZone (z : Str) : Bool :=
  decide (z = str "EST" ∨ z = str "EDT" ∨ z = str "UTC" ∨ z = str "GMT")

/-- `datetime.strptime(s, "%d/%m/%Y %H:%M:%S (%Z)")`.  Returns a
timezone-naive datetime (`%Z` is matched but, for these abbreviations,
`strptime` does not attach a tzinfo).  `ValueError` is modelled as `none`. -/
def strptimeDMYHMS (l : Str) : Option Datetime :=
  match splitChar ' ' l with
  | [datePart, timePart, zonePart] =>
    match splitChar '/' datePart, splitChar ':' timePart with
    | [ds, ms, ys], [hs, mins, ss] =>
      match parseNatUpTo 2 ds, parseNatUpTo 2 ms, parseNatUpTo 4 ys,
            parseNatUpTo 2 hs, parseNatUpTo 2 mins, parseNatUpTo 2 ss with
      | some d, some m, some y, some h, some mi, some s =>
        match unparen zonePart with
        | some z =>
          if acceptedZone z = true ∧ 1 ≤ y ∧ y ≤ 9999 ∧ 1 ≤ m ∧ m ≤ 12 ∧
             1 ≤ d ∧ d ≤ daysInMonth y m ∧ h ≤ 23 ∧ mi ≤ 59 ∧ s ≤ 59
          then some ⟨y, m, d, h, mi, s, none⟩ else none
        | none => none
      | _, _, _, _, _, _ => none
    | _, _ => none
  | _ => none

/-- Zero-padded 2-digit field (`%d`, `%m`, `%H`, `%M`, `%S`). -/
def pad2 (n : Nat) : Str := [Nat.digitChar (n / 10 % 10), Nat.digitChar (n % 10)]

/-- Zero-padded 4-digit year (`%Y`). -/
def pad4 (n : Nat) : Str :=
  [Nat.digitChar (n / 1000 % 10), Nat.digitChar (n / 100 % 10),
   Nat.digitChar (n / 10 % 10), Nat.digitChar (n % 10)]

/-- `dt.strftime("%d/%m/%Y %H:%M:%S (%Z)")`. -/
def strftimeDMYHMS (dt : Datetime) : Str :=
  pad2 dt.day ++ '/' :: pad2 dt.month ++ '/' :: pad4 dt.year ++
  ' ' :: pad2 dt.hour ++ ':' :: pad2 dt.minute ++ ':' :: pad2 dt.second ++
  ' ' :: '(' :: (tzAbbrevChars dt ++ [')'])

/-- One CO2 reading, as in src/co2_samples.py: `Co2Sample(timestamp, co2_ppm,
temp_c, rel_humidity)`. -/
structure Co2Sample where
  timestamp : Datetime
  co2_ppm : PyFloat
  temp_c : PyFloat
  rel_humidity : PyFloat
deriving DecidableEq, Repr

/-- `parse_sample` of src/co2_samples.py (lines 34-57).  The 4-way comma
unpacking, the per-field `strip` + single-space split, the `unit != "ppm"`
check (only the CO2 unit is checked — the temperature and humidity unit
tokens are bound to `_`), the timestamp parse, and the
`replace(tzinfo=America/New_York)` anchoring.  Every `ValueError` path
returns `None` (`none`). -/
def parse_sample (l : Str) : Option Co2Sample :=
  match splitChar ',' l with
  | [timestamp_str, co2_field, temp_field, hum_field] =>
    match splitChar ' ' (pyStrip co2_field) with
    | [co2_ppm, unit] =>
      match splitChar ' ' (pyStrip temp_field) with
      | [temp_c, _] =>
        match splitChar ' ' (pyStrip hum_field) with
        | [rel_humidity, _] =>
          if unit ≠ str "ppm" then none
          else
            match strptimeDMYHMS timestamp_str with
            | some dt =>
              match pyFloatOfString co2_ppm, pyFloatOfString temp_c,
                    pyFloatOfString rel_humidity with
              | some a, some b, some c =>
                some ⟨{ dt with tz := some Zone.nyc }, a, b, c⟩
              | _, _, _ => none
            | none => none
        | _ => none
      | _ => none
    | _ => none
  | _ => none

/-- The cache writer of `refresh_co2_ppm_cache` (src/co2_samples.py line 84):
`strftime(...) + f",{co2_ppm} ppm,{temp_c} C,{rel_humidity} rel_humidity\n"`. -/
def serialize_sample (s : Co2Sample) : Str :=
  strftimeDMYHMS s.timestamp ++ [','] ++ s.co2_ppm.lit ++ str " ppm" ++ [','] ++
  s.temp_c.lit ++ str " C" ++ [','] ++ s.rel_humidity.lit ++ str " rel_humidity" ++ ['\n']

/-- Python's comparison of two same-zone aware datetimes, field-lexicographic
on the wall clock (used as the `sort(key=lambda x: x.timestamp)` order). -/
def dtLe (a b : Datetime) : Bool :=
  decide (a.year < b.year ∨ (a.year = b.year ∧ (a.month < b.month ∨ (a.month = b.month ∧
    (a.day < b.day ∨ (a.day = b.day ∧ (a.hour < b.hour ∨ (a.hour = b.hour ∧
    (a.minute < b.minute ∨ (a.minute = b.minute ∧ a.second ≤ b.second))))))))))

/-- Stable insertion used to model `list.sort(key=lambda x: x.timestamp)`
(Python's sort is stable ascending; insertion with `≤` is stable too, and no
claim depends on the tie order beyond stability). -/
def insertByTs (a : Co2Sample) : List Co2Sample → List Co2Sample
  | [] => [a]
  | b :: rest =>
    if dtLe a.timestamp b.timestamp then a :: b :: rest else b :: insertByTs a rest

def sortSamples : List Co2Sample → List Co2Sample
  | [] => []
  | a :: rest => insertByTs a (sortSamples rest)

/-- The cache directory: file name ↦ content association list (listdir order
is the list order) plus the directory-exists flag. -/
structure FS where
  files : List (Str × Str)
  dirExists : Bool
deriving DecidableEq, Repr

def lookupFile : List (Str × Str) → Str → Option Str
  | [], _ => none
  | (n, c) :: rest, name => if n = name then some c else lookupFile rest name

def writeFile : List (Str × Str) → Str → Str → List (Str × Str)
  | [], name, c => [(name, c)]
  | (n, c0) :: rest, name, c =>
    if n = name then (n, c) :: rest else (n, c0) :: writeFile rest name c

/-- `os.rename(old, new)`: every entry named `old` takes the name `new`. -/
def renameFile (files : List (Str × Str)) (oldName newName : Str) : List (Str × Str) :=
  files.map fun p => if p.1 = oldName then (newName, p.2) else p

/-- `CO2_PPM_CACHE` of src/co2_samples.py. -/
def cacheName : Str := str "co2_ppm_samples.csv"

/-- `os.path.getsize`; cache content is ASCII so characters = bytes. -/
def sizeBytes (content : Str) : Nat := content.length

/-- `datetime.now(est).strftime('%Y%m%dT%H%M%S')`. -/
def stampChars (now : Datetime) : Str :=
  pad4 now.year ++ pad2 now.month ++ pad2 now.day ++
  'T' :: (pad2 now.hour ++ pad2 now.minute ++ pad2 now.second)

def archName (now : Datetime) : Str := cacheName ++ '.' :: stampChars now

/-- The rotation step of `refresh_co2_ppm_cache` (src/co2_samples.py lines
85-89): if the active segment is larger than 5 MiB (strict `>`), rename it to
the stamped archival name and create a fresh empty active segment. -/
def rotate_if_oversized (now : Datetime) (fs : FS) : FS :=
  match lookupFile fs.files cacheName with
  | none => fs
  | some content =>
    if sizeBytes content > 5 * 1024 * 1024 then
      { fs with files := writeFile (renameFile fs.files cacheName (archName now)) cacheName [] }
    else fs

/-- `f.readlines()` + per-line `parse_sample`, skipping `None`s.  Lines are
taken without their trailing newline; `parse_sample` strips each field, so
this is observationally identical to `readlines`' newline-keeping lines. -/
def parseLines (content : Str) : List Co2Sample :=
  (splitChar '\n' content).filterMap parse_sample

def serializeAll (samples : List Co2Sample) : Str :=
  samples.foldr (fun s acc => serialize_sample s ++ acc) []

/-- src/co2_samples.py lines 74-80: create the cache file empty if absent. -/
def ensure_cache_file (fs : FS) : FS :=
  if (lookupFile fs.files cacheName).isNone
  then { fs with files := writeFile fs.files cacheName [] } else fs

/-- Appending with `open(cache_file, 'a')`. -/
def append_cache (fs : FS) (content : Str) : FS :=
  { fs with files := writeFile fs.files cacheName (((lookupFile fs.files cacheName).getD []) ++ content) }

/-- `refresh_co2_ppm_cache` of src/co2_samples.py (lines 59-89) after a
successful fetch of `blob`: split the body on newlines, strip and parse each
line skipping failures, `mkdir(exist_ok=True)`, ensure the active segment
exists, append the serialized samples, then rotate if oversized. -/
def refresh_with_blob (now : Datetime) (blob : Str) (fs : FS) : FS :=
  rotate_if_oversized now
    (append_cache (ensure_cache_file { fs with dirExists := true })
      (serializeAll ((splitChar '\n' blob).filterMap fun l => parse_sample (pyStrip l))))

inductive PyErr
  | fileNotFound
deriving DecidableEq, Repr

/-- `get_co2_ppm_cache` of src/co2_samples.py (lines 91-103): opens the
active segment (`FileNotFoundError` if absent — there is no handler), parses
every line skipping failures, and sorts by timestamp. -/
def get_co2_ppm_cache (fs : FS) : Except PyErr (List Co2Sample) :=
  match lookupFile fs.files cacheName with
  | none => .error .fileNotFound
  | some content => .ok (sortSamples (parseLines content))

/-- `get_entire_co2_ppm_cache` of src/co2_samples.py (lines 105-125): every
file in the cache directory whose name starts with the identity, parsed and
concatenated in listdir order, then sorted by timestamp. -/
def get_entire_co2_ppm_cache (fs : FS) : List Co2Sample :=
  sortSamples
    ((fs.files.filter fun p => cacheName.isPrefixOf p.1).foldr
      (fun p acc => parseLines p.2 ++ acc) [])

/-- The 2-field sample of src/check_weather.py. -/
structure LegacyCo2Sample where
  timestamp : Datetime
  co2_ppm : PyFloat
deriving DecidableEq, Repr

/-- The parsing loop of `refresh_co2_ppm_cache` in src/check_weather.py
(lines 129-143): strip the line, unpack `timestamp, co2_ppm` on commas —
an unpacking `ValueError` hits a `break` that ABORTS the whole loop — then
`strptime` (no timezone anchoring) and `float`; a `ValueError` there only
skips the line. -/
def legacy_collect : List Str → List LegacyCo2Sample
  | [] => []
  | l :: rest =>
    match splitChar ',' (pyStrip l) with
    | [timestamp, co2_ppm] =>
      match strptimeDMYHMS timestamp, pyFloatOfString co2_ppm with
      | some dt, some v => ⟨dt, v⟩ :: legacy_collect rest
      | _, _ => legacy_collect rest
    | _ => []

/-- The samples `refresh_co2_ppm_cache` of src/check_weather.py appends for
a successfully fetched blob. -/
def legacy_refresh_samples (blob : Str) : List LegacyCo2Sample :=
  legacy_collect (splitChar '\n' blob)

/-- A float literal as the cache writer can emit it: accepted by `float`,
and free of the separator characters (commas, whitespace) — every Python
`repr(float)` satisfies this. -/
def wfFloatLit (l : Str) : Prop :=
  isFloatLit l = true ∧ l ≠ [] ∧ ∀ c ∈ l, c ≠ ',' ∧ pySpace c = false

/-- A datetime as the parser can produce it: anchored to America/New_York
with calendar-valid wall-clock fields. -/
def wfDatetime (dt : Datetime) : Prop :=
  dt.tz = some Zone.nyc ∧ 1 ≤ dt.year ∧ dt.year ≤ 9999 ∧ 1 ≤ dt.month ∧
  dt.month ≤ 12 ∧ 1 ≤ dt.day ∧ dt.day ≤ daysInMonth dt.year dt.month ∧
  dt.hour ≤ 23 ∧ dt.minute ≤ 59 ∧ dt.second ≤ 59

/-- A valid Sample per the parser's rules (spec §3): exactly the values that
can flow out of `parse_sample` into the cache. -/
def wfSample (s : Co2Sample) : Prop :=
  wfDatetime s.timestamp ∧ wfFloatLit s.co2_ppm.lit ∧
  wfFloatLit s.temp_c.lit ∧ wfFloatLit s.rel_humidity.lit

instance (l : Str) : Decidable (wfFloatLit l) := by
  unfold wfFloatLit
  exact inferInstance

instance (dt : Datetime) : Decidable (wfDatetime dt) := by
  unfold wfDatetime
  exact inferInstance

instance (s : Co2Sample) : Decidable (wfSample s) := by
  unfold wfSample
  exact inferInstance

/-- A fixed rotation instant used in concrete witnesses. -/
def nowEx : Datetime := ⟨2024, 3, 5, 14, 22, 1, some Zone.nyc⟩

/-- An active segment of exactly 5 MiB (the boundary the claim places "at or
above" the threshold). -/
def c5exact : Str := List.replicate (5 * 1024 * 1024) 'a'

def fs5exact : FS := ⟨[(cacheName, c5exact)], true⟩

/-- An active segment strictly above 5 MiB. -/
def c5big : Str := List.replicate (5 * 1024 * 1024 + 1) 'a'

def fs5big : FS := ⟨[(cacheName, c5big)], true⟩

/-- The sample serialized as
`01/01/2024 <h>:00:00 (EST),400 ppm,20 C,50 rel_humidity`. -/
def c6sample (h : Nat) : Co2Sample :=
  ⟨⟨2024, 1, 1, h, 0, 0, some Zone.nyc⟩, ⟨str "400"⟩, ⟨str "20"⟩, ⟨str "50"⟩⟩

/-- Cache state for the merge example: two archival segments holding samples
at hours [10, 12] and [11, 13], and the active segment holding hour 14. -/
def c6fs : FS :=
  ⟨[(str "co2_ppm_samples.csv.20240102T000000",
     str "01/01/2024 10:00:00 (EST),400 ppm,20 C,50 rel_humidity\n01/01/2024 12:00:00 (EST),400 ppm,20 C,50 rel_humidity\n"),
    (str "co2_ppm_samples.csv.20240103T000000",
     str "01/01/2024 11:00:00 (EST),400 ppm,20 C,50 rel_humidity\n01/01/2024 13:00:00 (EST),400 ppm,20 C,50 rel_humidity\n"),
    (cacheName,
     str "01/01/2024 14:00:00 (EST),400 ppm,20 C,50 rel_humidity\n")], true⟩

/-- A concrete well-formed sample used in witnesses. -/
def sampleEx : Co2Sample :=
  ⟨⟨2024, 3, 5, 14, 22, 1, some Zone.nyc⟩, ⟨str "512.0"⟩, ⟨str "21.4"⟩, ⟨str "47.0"⟩⟩

theorem splitChar_ne_nil (c : Char) : ∀ l : Str, splitChar c l ≠ []
  | [] => by simp [splitChar]
  | a :: t => by
    cases h : splitChar c t with
    | nil => exact absurd h (splitChar_ne_nil c t)
    | cons f fs => by_cases ha : a = c <;> simp [splitChar, h, ha]

theorem splitChar_not_mem {c : Char} : ∀ {l : Str}, c ∉ l → splitChar c l = [l]
  | [], _ => rfl
  | a :: t, h => by
    have ha : a ≠ c := fun e => h (e ▸ List.mem_cons_self a t)
    have ht : c ∉ t := fun e => h (List.mem_cons_of_mem a e)
    simp [splitChar, splitChar_not_mem ht, ha]

theorem splitChar_append {c : Char} : ∀ {xs : Str} (ys : Str), c ∉ xs →
    splitChar c (xs ++ c :: ys) = xs :: splitChar c ys
  | [], ys, _ => by
    cases h : splitChar c ys with
    | nil => exact absurd h (splitChar_ne_nil c ys)
    | cons f fs => simp [splitChar, h]
  | a :: xs, ys, h => by
    have ha : a ≠ c := fun e => h (e ▸ List.mem_cons_self a xs)
    have hxs : c ∉ xs := fun e => h (List.mem_cons_of_mem a e)
    simp [splitChar, splitChar_append ys hxs, ha]

theorem getLast?_append_right (v : Str) {w : Str} (hw : w ≠ []) :
    (v ++ w).getLast? = w.getLast? := by
  rw [List.getLast?_append]
  cases w with
  | nil => exact absurd rfl hw
  | cons a t =>
    have hs : (a :: t).getLast?.isSome := by simp [List.getLast?_isSome]
    cases hm : (a :: t).getLast? with
    | none => rw [hm] at hs; simp at hs
    | some x => simp [Option.or]

theorem pyStrip_eq_of_ends : ∀ {l : Str},
    (∀ a, l.head? = some a → pySpace a = false) →
    (∀ a, l.getLast? = some a → pySpace a = false) → pyStrip l = l
  | [], _, _ => rfl
  | a :: t, h1, h2 => by
    have ha : pySpace a = false := h1 a rfl
    cases hrev : (a :: t).reverse with
    | nil => simp at hrev
    | cons b rb =>
      have hb : pySpace b = false := by
        apply h2
        rw [← List.head?_reverse, hrev]; rfl
      unfold pyStrip
      rw [List.dropWhile_cons]
      simp only [ha, Bool.false_eq_true, if_false, hrev, List.dropWhile_cons, hb]
      rw [← hrev, List.reverse_reverse]

theorem pyStrip_append_newline : ∀ {l : Str},
    (∀ a, l.head? = some a → pySpace a = false) →
    (∀ a, l.getLast? = some a → pySpace a = false) → pyStrip (l ++ ['\n']) = l
  | [], _, _ => by decide
  | a :: t, h1, h2 => by
    have ha : pySpace a = false := h1 a rfl
    cases hrev : (a :: t).reverse with
    | nil => simp at hrev
    | cons b rb =>
      have hb : pySpace b = false := by
        apply h2
        rw [← List.head?_reverse, hrev]; rfl
      unfold pyStrip
      have e1 : ((a :: t) ++ ['\n']).dropWhile pySpace = (a :: t) ++ ['\n'] := by
        rw [List.cons_append, List.dropWhile_cons]
        simp [ha]
      rw [e1]
      have e2 : ((a :: t) ++ ['\n']).reverse = '\n' :: (a :: t).reverse := by
        simp
      rw [e2, List.dropWhile_cons]
      have hnl : pySpace '\n' = true := by decide
      simp only [hnl, if_true, hrev, List.dropWhile_cons, hb, Bool.false_eq_true, if_false]
      rw [← hrev, List.reverse_reverse]

theorem mem_of_head? {l : Str} {a : Char} (h : l.head? = some a) : a ∈ l := by
  cases l with
  | nil => simp at h
  | cons x t =>
    simp only [List.head?_cons, Option.some.injEq] at h
    exact h ▸ List.mem_cons_self x t

theorem mem_of_getLast? {l : Str} {a : Char} (h : l.getLast? = some a) : a ∈ l := by
  have := List.mem_reverse.mpr (mem_of_head? (l := l.reverse) (by rw [List.head?_reverse]; exact h))
  simpa using this

theorem pyStrip_eq_self {l : Str} (h : ∀ c ∈ l, pySpace c = false) : pyStrip l = l :=
  pyStrip_eq_of_ends (fun a ha => h a (mem_of_head? ha)) (fun a ha => h a (mem_of_getLast? ha))

theorem digitChar_isDigit {n : Nat} (h : n < 10) : (Nat.digitChar n).isDigit = true := by
  interval_cases n <;> decide

theorem digitVal_digitChar {n : Nat} (h : n < 10) : digitVal (Nat.digitChar n) = n := by
  interval_cases n <;> decide

theorem digitChar_plain {n : Nat} (h : n < 10) :
    pySpace (Nat.digitChar n) = false ∧ Nat.digitChar n ≠ ',' ∧
    Nat.digitChar n ≠ '/' ∧ Nat.digitChar n ≠ ':' := by
  interval_cases n <;> decide

theorem mod10_lt (n : Nat) : n % 10 < 10 := Nat.mod_lt _ (by norm_num)

theorem pad2_mem {n : Nat} {c : Char} (h : c ∈ pad2 n) :
    ∃ m, m < 10 ∧ c = Nat.digitChar m := by
  simp only [pad2, List.mem_cons, List.mem_singleton, List.not_mem_nil, or_false] at h
  rcases h with h | h
  · exact ⟨_, mod10_lt _, h⟩
  · exact ⟨_, mod10_lt _, h⟩

theorem pad4_mem {n : Nat} {c : Char} (h : c ∈ pad4 n) :
    ∃ m, m < 10 ∧ c = Nat.digitChar m := by
  simp only [pad4, List.mem_cons, List.mem_singleton, List.not_mem_nil, or_false] at h
  rcases h with h | h | h | h
  · exact ⟨_, mod10_lt _, h⟩
  · exact ⟨_, mod10_lt _, h⟩
  · exact ⟨_, mod10_lt _, h⟩
  · exact ⟨_, mod10_lt _, h⟩

theorem pad2_plain {n : Nat} {c : Char} (h : c ∈ pad2 n) :
    pySpace c = false ∧ c ≠ ',' ∧ c ≠ '/' ∧ c ≠ ':' := by
  obtain ⟨m, hm, rfl⟩ := pad2_mem h
  exact digitChar_plain hm

theorem pad4_plain {n : Nat} {c : Char} (h : c ∈ pad4 n) :
    pySpace c = false ∧ c ≠ ',' ∧ c ≠ '/' ∧ c ≠ ':' := by
  obtain ⟨m, hm, rfl⟩ := pad4_mem h
  exact digitChar_plain hm

theorem digitsToNat_pad2 {n : Nat} (h : n ≤ 99) : digitsToNat (pad2 n) = n := by
  have h1 : n / 10 % 10 = n / 10 := Nat.mod_eq_of_lt (by omega)
  simp only [digitsToNat, pad2, List.foldl_cons, List.foldl_nil,
    digitVal_digitChar (mod10_lt _), h1]
  rw [digitVal_digitChar (by omega : n / 10 < 10)]
  omega

theorem digitsToNat_pad4 {n : Nat} (h : n ≤ 9999) : digitsToNat (pad4 n) = n := by
  simp only [digitsToNat, pad4, List.foldl_cons, List.foldl_nil,
    digitVal_digitChar (mod10_lt _)]
  omega

theorem parseNatUpTo_pad2 {n : Nat} (h : n ≤ 99) : parseNatUpTo 2 (pad2 n) = some n := by
  unfold parseNatUpTo
  rw [if_pos, digitsToNat_pad2 h]
  refine ⟨by simp [pad2], by simp [pad2], ?_⟩
  simp only [List.all_eq_true]
  intro c hc
  obtain ⟨m, hm, rfl⟩ := pad2_mem hc
  exact digitChar_isDigit hm

theorem parseNatUpTo_pad4 {n : Nat} (h : n ≤ 9999) : parseNatUpTo 4 (pad4 n) = some n := by
  unfold parseNatUpTo
  rw [if_pos, digitsToNat_pad4 h]
  refine ⟨by simp [pad4], by simp [pad4], ?_⟩
  simp only [List.all_eq_true]
  intro c hc
  obtain ⟨m, hm, rfl⟩ := pad4_mem hc
  exact digitChar_isDigit hm

theorem unparen_round (z : Str) : unparen ('(' :: (z ++ [')'])) = some z := by
  show (match (z ++ [')']).reverse with
    | ')' :: mid => some mid.reverse
    | _ => none) = some z
  have e : (z ++ [')']).reverse = ')' :: z.reverse := by simp
  rw [e]
  simp

theorem tzAbbrev_nyc {dt : Datetime} (h : dt.tz = some Zone.nyc) :
    tzAbbrevChars dt = str "EDT" ∨ tzAbbrevChars dt = str "EST" := by
  rw [tzAbbrevChars, h]
  by_cases hd : isNycDST dt = true
  · left; simp [hd]
  · right; simp [hd]

theorem lookupFile_cons (n c : Str) (rest : List (Str × Str)) (name : Str) :
    lookupFile ((n, c) :: rest) name = if n = name then some c else lookupFile rest name := rfl

theorem writeFile_cons (n c0 : Str) (rest : List (Str × Str)) (name c : Str) :
    writeFile ((n, c0) :: rest) name c =
      if n = name then (n, c) :: rest else (n, c0) :: writeFile rest name c := rfl

theorem renameFile_cons (x c : Str) (rest : List (Str × Str)) (o nw : Str) :
    renameFile ((x, c) :: rest) o nw =
      (if x = o then (nw, c) else (x, c)) :: renameFile rest o nw := rfl

theorem lookupFile_writeFile_self : ∀ (l : List (Str × Str)) (n c : Str),
    lookupFile (writeFile l n c) n = some c
  | [], n, c => by rw [writeFile, lookupFile_cons, if_pos rfl]
  | (m, c0) :: rest, n, c => by
    rw [writeFile_cons]
    by_cases h : m = n
    · rw [if_pos h, lookupFile_cons, if_pos h]
    · rw [if_neg h, lookupFile_cons, if_neg h]
      exact lookupFile_writeFile_self rest n c

theorem lookupFile_writeFile_ne : ∀ (l : List (Str × Str)) {m n : Str} (c : Str),
    m ≠ n → lookupFile (writeFile l n c) m = lookupFile l m
  | [], m, n, c, h => by
    rw [writeFile, lookupFile_cons, if_neg (fun e => h e.symm)]
  | (x, c0) :: rest, m, n, c, h => by
    rw [writeFile_cons]
    by_cases hx : x = n
    · rw [if_pos hx, lookupFile_cons, lookupFile_cons]
      have hxm : x ≠ m := fun e => h (e ▸ hx)
      rw [if_neg hxm, if_neg hxm]
    · rw [if_neg hx, lookupFile_cons, lookupFile_cons]
      by_cases hxm : x = m
      · rw [if_pos hxm, if_pos hxm]
      · rw [if_neg hxm, if_neg hxm]
        exact lookupFile_writeFile_ne rest c h

theorem renameFile_of_not_mem {l : List (Str × Str)} {o nw : Str}
    (h : ∀ p ∈ l, p.1 ≠ o) : renameFile l o nw = l := by
  unfold renameFile
  conv_rhs => rw [← List.map_id l]
  apply List.map_congr_left
  intro p hp
  simp [h p hp]

theorem lookupFile_renameFile_other : ∀ (l : List (Str × Str)) {o nw m : Str},
    m ≠ o → m ≠ nw → lookupFile (renameFile l o nw) m = lookupFile l m
  | [], o, nw, m, h1, h2 => rfl
  | (x, c) :: rest, o, nw, m, h1, h2 => by
    rw [renameFile_cons]
    by_cases hx : x = o
    · rw [if_pos hx, lookupFile_cons, lookupFile_cons,
        if_neg (fun e => h2 e.symm), if_neg (fun e => h1 (hx ▸ e.symm))]
      exact lookupFile_renameFile_other rest h1 h2
    · rw [if_neg hx, lookupFile_cons, lookupFile_cons]
      by_cases hxm : x = m
      · rw [if_pos hxm, if_pos hxm]
      · rw [if_neg hxm, if_neg hxm]
        exact lookupFile_renameFile_other rest h1 h2

theorem lookupFile_renameFile_new : ∀ (l : List (Str × Str)) {o nw : Str},
    lookupFile l nw = none → lookupFile (renameFile l o nw) nw = lookupFile l o
  | [], o, nw, h => rfl
  | (x, c) :: rest, o, nw, h => by
    have hxnw : x ≠ nw := by
      intro e
      rw [lookupFile_cons, if_pos e] at h
      exact Option.noConfusion h
    have hrest : lookupFile rest nw = none := by
      rwa [lookupFile_cons, if_neg hxnw] at h
    rw [renameFile_cons]
    by_cases hx : x = o
    · rw [if_pos hx, lookupFile_cons, if_pos rfl, lookupFile_cons, if_pos hx]
    · rw [if_neg hx, lookupFile_cons, if_neg hxnw, lookupFile_cons, if_neg hx]
      exact lookupFile_renameFile_new rest hrest

theorem lookupFile_renameFile_old : ∀ (l : List (Str × Str)) {o nw : Str},
    o ≠ nw → lookupFile (renameFile l o nw) o = none
  | [], o, nw, h => rfl
  | (x, c) :: rest, o, nw, h => by
    rw [renameFile_cons]
    by_cases hx : x = o
    · rw [if_pos hx, lookupFile_cons, if_neg (fun e => h e.symm)]
      exact lookupFile_renameFile_old rest h
    · rw [if_neg hx, lookupFile_cons, if_neg hx]
      exact lookupFile_renameFile_old rest h

theorem mem_renameFile {l : List (Str × Str)} {o nw : Str} {p : Str × Str}
    (h : p ∈ renameFile l o nw) : p.1 = nw ∨ (p ∈ l ∧ p.1 ≠ o) := by
  unfold renameFile at h
  obtain ⟨q, hq, he⟩ := List.mem_map.mp h
  by_cases hqo : q.1 = o
  · rw [if_pos hqo] at he
    left; rw [← he]
  · rw [if_neg hqo] at he
    right; exact ⟨he ▸ hq, he ▸ hqo⟩

theorem renameFile_no_old {l : List (Str × Str)} {o nw : Str} (h : o ≠ nw) :
    ∀ p ∈ renameFile l o nw, p.1 ≠ o := by
  intro p hp
  rcases mem_renameFile hp with h1 | ⟨_, h2⟩
  · rw [h1]; exact fun e => h e.symm
  · exact h2

theorem writeFile_append_fresh : ∀ {l : List (Str × Str)} {n c : Str},
    (∀ p ∈ l, p.1 ≠ n) → writeFile l n c = l ++ [(n, c)]
  | [], n, c, _ => rfl
  | (x, c0) :: rest, n, c, h => by
    have hx : x ≠ n := h (x, c0) (List.mem_cons_self _ _)
    rw [writeFile_cons, if_neg hx, List.cons_append]
    rw [writeFile_append_fresh fun p hp => h p (List.mem_cons_of_mem _ hp)]

theorem dtLe_total (a b : Datetime) : dtLe a b = true ∨ dtLe b a = true := by
  simp only [dtLe, decide_eq_true_eq]
  omega

theorem dtLe_trans {a b c : Datetime} (h1 : dtLe a b = true) (h2 : dtLe b c = true) :
    dtLe a c = true := by
  simp only [dtLe, decide_eq_true_eq] at *
  omega

theorem insertByTs_perm (a : Co2Sample) : ∀ l : List Co2Sample,
    (insertByTs a l).Perm (a :: l)
  | [] => List.Perm.refl _
  | b :: rest => by
    unfold insertByTs
    by_cases h : dtLe a.timestamp b.timestamp = true
    · rw [if_pos h]
    · rw [if_neg h]
      exact ((insertByTs_perm a rest).cons b).trans (List.Perm.swap a b rest)

theorem sortSamples_perm : ∀ l : List Co2Sample, (sortSamples l).Perm l
  | [] => List.Perm.refl _
  | a :: rest => by
    unfold sortSamples
    exact (insertByTs_perm a (sortSamples rest)).trans ((sortSamples_perm rest).cons a)

theorem insertByTs_sorted {a : Co2Sample} : ∀ {l : List Co2Sample},
    l.Pairwise (fun x y => dtLe x.timestamp y.timestamp = true) →
    (insertByTs a l).Pairwise (fun x y => dtLe x.timestamp y.timestamp = true)
  | [], _ => by simp [insertByTs]
  | b :: rest, h => by
    unfold insertByTs
    rcases List.pairwise_cons.mp h with ⟨hb, hrest⟩
    by_cases hab : dtLe a.timestamp b.timestamp = true
    · rw [if_pos hab]
      refine List.pairwise_cons.mpr ⟨?_, h⟩
      intro x hx
      rcases List.mem_cons.mp hx with rfl | hx
      · exact hab
      · exact dtLe_trans hab (hb x hx)
    · rw [if_neg hab]
      have hba : dtLe b.timestamp a.timestamp = true :=
        (dtLe_total a.timestamp b.timestamp).resolve_left hab
      refine List.pairwise_cons.mpr ⟨?_, insertByTs_sorted hrest⟩
      intro x hx
      rcases List.mem_cons.mp ((insertByTs_perm a rest).mem_iff.mp hx) with rfl | hx
      · exact hba
      · exact hb x hx

theorem sortSamples_sorted : ∀ l : List Co2Sample,
    (sortSamples l).Pairwise (fun x y => dtLe x.timestamp y.timestamp = true)
  | [] => List.Pairwise.nil
  | _ :: rest => insertByTs_sorted (sortSamples_sorted rest)

theorem pad2_not_mem {n : Nat} {c : Char} (h : c.isDigit = false) : c ∉ pad2 n := by
  intro hm
  obtain ⟨m, hm10, rfl⟩ := pad2_mem hm
  rw [digitChar_isDigit hm10] at h
  exact Bool.noConfusion h

theorem pad4_not_mem {n : Nat} {c : Char} (h : c.isDigit = false) : c ∉ pad4 n := by
  intro hm
  obtain ⟨m, hm10, rfl⟩ := pad4_mem hm
  rw [digitChar_isDigit hm10] at h
  exact Bool.noConfusion h

theorem space_not_mem_datechunk (d m y : Nat) :
    ' ' ∉ pad2 d ++ ('/' :: (pad2 m ++ ('/' :: pad4 y))) := by
  intro hm
  rcases List.mem_append.mp hm with h | hm
  · exact pad2_not_mem (c := ' ') (by decide) h
  · rcases List.mem_cons.mp hm with h | hm
    · exact absurd h (by decide)
    · rcases List.mem_append.mp hm with h | hm
      · exact pad2_not_mem (c := ' ') (by decide) h
      · rcases List.mem_cons.mp hm with h | hm
        · exact absurd h (by decide)
        · exact pad4_not_mem (c := ' ') (by decide) hm

theorem space_not_mem_timechunk (h mi s : Nat) :
    ' ' ∉ pad2 h ++ (':' :: (pad2 mi ++ (':' :: pad2 s))) := by
  intro hm
  rcases List.mem_append.mp hm with hx | hm
  · exact pad2_not_mem (c := ' ') (by decide) hx
  · rcases List.mem_cons.mp hm with hx | hm
    · exact absurd hx (by decide)
    · rcases List.mem_append.mp hm with hx | hm
      · exact pad2_not_mem (c := ' ') (by decide) hx
      · rcases List.mem_cons.mp hm with hx | hm
        · exact absurd hx (by decide)
        · exact pad2_not_mem (c := ' ') (by decide) hm

theorem splitChar_space_strftime (dt : Datetime) (htz : dt.tz = some Zone.nyc) :
    splitChar ' ' (strftimeDMYHMS dt) =
      [pad2 dt.day ++ ('/' :: (pad2 dt.month ++ ('/' :: pad4 dt.year))),
       pad2 dt.hour ++ (':' :: (pad2 dt.minute ++ (':' :: pad2 dt.second))),
       '(' :: (tzAbbrevChars dt ++ [')'])] := by
  have hA : strftimeDMYHMS dt =
      (pad2 dt.day ++ ('/' :: (pad2 dt.month ++ ('/' :: pad4 dt.year)))) ++
      (' ' :: ((pad2 dt.hour ++ (':' :: (pad2 dt.minute ++ (':' :: pad2 dt.second)))) ++
      (' ' :: ('(' :: (tzAbbrevChars dt ++ [')']))))) := by
    simp [strftimeDMYHMS, List.append_assoc]
  have hZ : ' ' ∉ '(' :: (tzAbbrevChars dt ++ [')']) := by
    rcases tzAbbrev_nyc htz with he | he <;> rw [he] <;> decide
  rw [hA, splitChar_append _ (space_not_mem_datechunk _ _ _),
    splitChar_append _ (space_not_mem_timechunk _ _ _), splitChar_not_mem hZ]

theorem splitChar_slash_datechunk (d m y : Nat) :
    splitChar '/' (pad2 d ++ ('/' :: (pad2 m ++ ('/' :: pad4 y)))) =
      [pad2 d, pad2 m, pad4 y] := by
  rw [splitChar_append _ (pad2_not_mem (c := '/') (by decide)),
    splitChar_append _ (pad2_not_mem (c := '/') (by decide)),
    splitChar_not_mem (pad4_not_mem (c := '/') (by decide))]

theorem splitChar_colon_timechunk (h mi s : Nat) :
    splitChar ':' (pad2 h ++ (':' :: (pad2 mi ++ (':' :: pad2 s)))) =
      [pad2 h, pad2 mi, pad2 s] := by
  rw [splitChar_append _ (pad2_not_mem (c := ':') (by decide)),
    splitChar_append _ (pad2_not_mem (c := ':') (by decide)),
    splitChar_not_mem (pad2_not_mem (c := ':') (by decide))]

theorem acceptedZone_tzAbbrev {dt : Datetime} (htz : dt.tz = some Zone.nyc) :
    acceptedZone (tzAbbrevChars dt) = true := by
  rcases tzAbbrev_nyc htz with he | he <;> rw [he] <;> decide

theorem strptime_strftime (dt : Datetime) (hwf : wfDatetime dt) :
    strptimeDMYHMS (strftimeDMYHMS dt) =
      some ⟨dt.year, dt.month, dt.day, dt.hour, dt.minute, dt.second, none⟩ := by
  obtain ⟨htz, hy1, hy2, hm1, hm2, hd1, hd2, hh, hmi, hs⟩ := hwf
  have hdm : daysInMonth dt.year dt.month ≤ 31 := by
    unfold daysInMonth
    split
    · split <;> omega
    · split <;> omega
  unfold strptimeDMYHMS
  rw [splitChar_space_strftime dt htz]
  simp only [splitChar_slash_datechunk, splitChar_colon_timechunk,
    parseNatUpTo_pad2 (show dt.day ≤ 99 by omega),
    parseNatUpTo_pad2 (show dt.month ≤ 99 by omega),
    parseNatUpTo_pad4 (show dt.year ≤ 9999 by omega),
    parseNatUpTo_pad2 (show dt.hour ≤ 99 by omega),
    parseNatUpTo_pad2 (show dt.minute ≤ 99 by omega),
    parseNatUpTo_pad2 (show dt.second ≤ 99 by omega),
    unparen_round]
  rw [if_pos]
  exact ⟨acceptedZone_tzAbbrev htz, hy1, hy2, hm1, hm2, hd1, hd2, hh, hmi, hs⟩

theorem strftime_eq (dt : Datetime) :
    strftimeDMYHMS dt =
      (pad2 dt.day ++ ('/' :: (pad2 dt.month ++ ('/' :: pad4 dt.year)))) ++
      (' ' :: ((pad2 dt.hour ++ (':' :: (pad2 dt.minute ++ (':' :: pad2 dt.second)))) ++
      (' ' :: ('(' :: (tzAbbrevChars dt ++ [')']))))) := by
  simp [strftimeDMYHMS, List.append_assoc]

theorem not_mem_datechunk {c : Char} (hd : c.isDigit = false) (hs : c ≠ '/')
    (d m y : Nat) : c ∉ pad2 d ++ ('/' :: (pad2 m ++ ('/' :: pad4 y))) := by
  intro hm
  rcases List.mem_append.mp hm with h | hm
  · exact pad2_not_mem hd h
  · rcases List.mem_cons.mp hm with h | hm
    · exact hs h
    · rcases List.mem_append.mp hm with h | hm
      · exact pad2_not_mem hd h
      · rcases List.mem_cons.mp hm with h | hm
        · exact hs h
        · exact pad4_not_mem hd hm

theorem not_mem_timechunk {c : Char} (hd : c.isDigit = false) (hs : c ≠ ':')
    (h mi s : Nat) : c ∉ pad2 h ++ (':' :: (pad2 mi ++ (':' :: pad2 s))) := by
  intro hm
  rcases List.mem_append.mp hm with hx | hm
  · exact pad2_not_mem hd hx
  · rcases List.mem_cons.mp hm with hx | hm
    · exact hs hx
    · rcases List.mem_append.mp hm with hx | hm
      · exact pad2_not_mem hd hx
      · rcases List.mem_cons.mp hm with hx | hm
        · exact hs hx
        · exact pad2_not_mem hd hm

theorem comma_not_mem_tzAbbrev (dt : Datetime) : ',' ∉ tzAbbrevChars dt := by
  unfold tzAbbrevChars
  cases dt.tz with
  | none => simp
  | some z =>
    cases z
    by_cases h : isNycDST dt = true <;> simp [h] <;> decide

theorem comma_not_mem_strftime (dt : Datetime) : ',' ∉ strftimeDMYHMS dt := by
  intro hm
  rw [strftime_eq] at hm
  rcases List.mem_append.mp hm with h | hm
  · exact not_mem_datechunk (by decide) (by decide) _ _ _ h
  · rcases List.mem_cons.mp hm with h | hm
    · exact absurd h (by decide)
    · rcases List.mem_append.mp hm with h | hm
      · exact not_mem_timechunk (by decide) (by decide) _ _ _ h
      · rcases List.mem_cons.mp hm with h | hm
        · exact absurd h (by decide)
        · rcases List.mem_cons.mp hm with h | hm
          · exact absurd h (by decide)
          · rcases List.mem_append.mp hm with h | hm
            · exact comma_not_mem_tzAbbrev dt h
            · exact absurd (List.mem_singleton.mp hm) (by decide)

theorem strip_field_suffix {v : Str} (hv : wfFloatLit v) {w : Str} (hwne : w ≠ [])
    (hw : ∀ c ∈ w, pySpace c = false) :
    pyStrip (v ++ (' ' :: w)) = v ++ (' ' :: w) := by
  obtain ⟨hf, hne, hch⟩ := hv
  apply pyStrip_eq_of_ends
  · intro a ha
    cases v with
    | nil => exact absurd rfl hne
    | cons x t =>
      rw [List.cons_append, List.head?_cons] at ha
      have := Option.some.inj ha
      subst this
      exact (hch x (List.mem_cons_self x t)).2
  · intro a ha
    rw [getLast?_append_right v (by simp),
      show (' ' :: w) = [' '] ++ w from rfl, getLast?_append_right _ hwne] at ha
    exact hw a (mem_of_getLast? ha)

theorem split_field_suffix {v : Str} (hv : wfFloatLit v) {w : Str} (hw : ' ' ∉ w) :
    splitChar ' ' (v ++ (' ' :: w)) = [v, w] := by
  have hv' : ' ' ∉ v := fun hm => by
    have h := (hv.2.2 ' ' hm).2
    revert h; decide
  rw [splitChar_append _ hv', splitChar_not_mem hw]

theorem strip_field_newline {v : Str} (hv : wfFloatLit v) {w : Str} (hwne : w ≠ [])
    (hw : ∀ c ∈ w, pySpace c = false) :
    pyStrip ((v ++ (' ' :: w)) ++ ['\n']) = v ++ (' ' :: w) := by
  obtain ⟨hf, hne, hch⟩ := hv
  apply pyStrip_append_newline
  · intro a ha
    cases v with
    | nil => exact absurd rfl hne
    | cons x t =>
      rw [List.cons_append, List.head?_cons] at ha
      have := Option.some.inj ha
      subst this
      exact (hch x (List.mem_cons_self x t)).2
  · intro a ha
    rw [getLast?_append_right v (by simp),
      show (' ' :: w) = [' '] ++ w from rfl, getLast?_append_right _ hwne] at ha
    exact hw a (mem_of_getLast? ha)

theorem pyFloat_of_wf {v : Str} (hv : wfFloatLit v) : pyFloatOfString v = some ⟨v⟩ := by
  unfold pyFloatOfString
  rw [pyStrip_eq_self (fun c hc => (hv.2.2 c hc).2)]
  simp [hv.1]

theorem serialize_eq (s : Co2Sample) :
    serialize_sample s =
      strftimeDMYHMS s.timestamp ++
      (',' :: ((s.co2_ppm.lit ++ (' ' :: str "ppm")) ++
      (',' :: ((s.temp_c.lit ++ (' ' :: str "C")) ++
      (',' :: ((s.rel_humidity.lit ++ (' ' :: str "rel_humidity")) ++ ['\n'])))))) := by
  have e1 : str " ppm" = ' ' :: str "ppm" := rfl
  have e2 : str " C" = ' ' :: str "C" := rfl
  have e3 : str " rel_humidity" = ' ' :: str "rel_humidity" := rfl
  simp [serialize_sample, e1, e2, e3, List.append_assoc]

theorem comma_not_mem_floatfield {v : Str} (hv : wfFloatLit v) {w : Str}
    (hw : ',' ∉ w) : ',' ∉ v ++ w := by
  intro hm
  rcases List.mem_append.mp hm with h | h
  · exact (hv.2.2 ',' h).1 rfl
  · exact hw h

theorem splitChar_comma_serialize (s : Co2Sample) (h2 : wfFloatLit s.co2_ppm.lit)
    (h3 : wfFloatLit s.temp_c.lit) (h4 : wfFloatLit s.rel_humidity.lit) :
    splitChar ',' (serialize_sample s) =
      [strftimeDMYHMS s.timestamp,
       s.co2_ppm.lit ++ (' ' :: str "ppm"),
       s.temp_c.lit ++ (' ' :: str "C"),
       (s.rel_humidity.lit ++ (' ' :: str "rel_humidity")) ++ ['\n']] := by
  rw [serialize_eq, splitChar_append _ (comma_not_mem_strftime _),
    splitChar_append _ (comma_not_mem_floatfield h2 (by decide)),
    splitChar_append _ (comma_not_mem_floatfield h3 (by decide)),
    splitChar_not_mem
      (fun hm => by
        rcases List.mem_append.mp hm with h | h
        · exact comma_not_mem_floatfield h4 (by decide) h
        · exact absurd (List.mem_singleton.mp h) (by decide))]

theorem roundtrip_sample (s : Co2Sample) (hwf : wfSample s) :
    parse_sample (serialize_sample s) = some s := by
  obtain ⟨hdt, h2, h3, h4⟩ := hwf
  have hsp2 : splitChar ' ' (pyStrip (s.co2_ppm.lit ++ (' ' :: str "ppm"))) =
      [s.co2_ppm.lit, str "ppm"] := by
    rw [strip_field_suffix h2 (by decide) (by decide), split_field_suffix h2 (by decide)]
  have hsp3 : splitChar ' ' (pyStrip (s.temp_c.lit ++ (' ' :: str "C"))) =
      [s.temp_c.lit, str "C"] := by
    rw [strip_field_suffix h3 (by decide) (by decide), split_field_suffix h3 (by decide)]
  have hsp4 : splitChar ' ' (pyStrip ((s.rel_humidity.lit ++ (' ' :: str "rel_humidity")) ++ ['\n'])) =
      [s.rel_humidity.lit, str "rel_humidity"] := by
    rw [strip_field_newline h4 (by decide) (by decide), split_field_suffix h4 (by decide)]
  simp only [parse_sample, splitChar_comma_serialize s h2 h3 h4, hsp2, hsp3, hsp4,
    strptime_strftime s.timestamp hdt, pyFloat_of_wf h2, pyFloat_of_wf h3, pyFloat_of_wf h4]
  rw [if_neg (fun h => h rfl)]
  obtain ⟨⟨sy, smo, sd, sh, smi, ss, stz⟩, ⟨l2⟩, ⟨l3⟩, ⟨l4⟩⟩ := s
  have : stz = some Zone.nyc := hdt.1
  subst this
  rfl

theorem parse_fields_ne_four {l : Str} (h : (splitChar ',' l).length ≠ 4) :
    parse_sample l = none := by
  unfold parse_sample
  rcases hs : splitChar ',' l with _ | ⟨a, _ | ⟨b, _ | ⟨c, _ | ⟨d, _ | ⟨e, t⟩⟩⟩⟩⟩ <;>
    first
      | rfl
      | (rw [hs] at h; simp at h)

theorem parse_bad_unit {l ts f2 f3 f4 v u : Str} (hs : splitChar ',' l = [ts, f2, f3, f4])
    (h2 : splitChar ' ' (pyStrip f2) = [v, u]) (hu : u ≠ str "ppm") :
    parse_sample l = none := by
  simp only [parse_sample, hs, h2]
  split
  · split
    · rw [if_pos hu]
    · rfl
  · rfl

theorem parse_bad_timestamp {l ts f2 f3 f4 : Str} (hs : splitChar ',' l = [ts, f2, f3, f4])
    (ht : strptimeDMYHMS ts = none) : parse_sample l = none := by
  simp only [parse_sample, hs, ht]
  split
  · split
    · split
      · split
        · rfl
        · rfl
      · rfl
    · rfl
  · rfl

theorem parse_whitespace {l : Str} (h : ∀ c ∈ l, pySpace c = true) :
    parse_sample l = none := by
  have hc : ',' ∉ l := fun hm => by
    have h2 := h ',' hm
    revert h2; decide
  apply parse_fields_ne_four
  rw [splitChar_not_mem hc]
  simp

theorem cacheName_ne_archName (now : Datetime) : cacheName ≠ archName now := by
  intro h
  have hl := congrArg List.length h
  rw [archName] at hl
  simp [List.length_append] at hl

theorem isPrefixOf_append_self : ∀ (l t : Str), l.isPrefixOf (l ++ t) = true
  | [], _ => by simp [List.isPrefixOf]
  | a :: r, t => by simp [List.isPrefixOf, isPrefixOf_append_self r t]

theorem cacheName_isPrefixOf_arch (now : Datetime) :
    cacheName.isPrefixOf (archName now) = true := isPrefixOf_append_self cacheName _

theorem cacheName_isPrefixOf_self : cacheName.isPrefixOf cacheName = true := by decide

theorem filter_rename_eq : ∀ (files : List (Str × Str)) {now : Datetime} {c : Str},
    lookupFile files cacheName = some c →
    (∀ p ∈ files, p.1 ≠ cacheName → cacheName.isPrefixOf p.1 = false) →
    (files.map Prod.fst).Nodup →
    (renameFile files cacheName (archName now)).filter
      (fun p => cacheName.isPrefixOf p.1) = [(archName now, c)]
  | [], now, c, hlook, _, _ => by
    simp [lookupFile] at hlook
  | (x, cx) :: rest, now, c, hlook, honly, hnodup => by
    by_cases hx : x = cacheName
    · subst hx
      rw [lookupFile_cons, if_pos rfl] at hlook
      obtain rfl := Option.some.inj hlook
      have hrest_ne : ∀ p ∈ rest, p.1 ≠ cacheName := by
        intro p hp he
        rw [List.map_cons, List.nodup_cons] at hnodup
        have hm := List.mem_map_of_mem Prod.fst hp
        rw [he] at hm
        exact hnodup.1 hm
      rw [renameFile_cons, if_pos rfl, renameFile_of_not_mem hrest_ne,
        List.filter_cons_of_pos (by simp [cacheName_isPrefixOf_arch])]
      congr 1
      rw [List.filter_eq_nil_iff]
      intro p hp
      simp only [Bool.not_eq_true]
      exact honly p (List.mem_cons_of_mem _ hp) (hrest_ne p hp)
    · rw [lookupFile_cons, if_neg hx] at hlook
      have hpre : cacheName.isPrefixOf x = false :=
        honly (x, cx) (List.mem_cons_self _ _) hx
      rw [renameFile_cons, if_neg hx, List.filter_cons_of_neg (by simp [hpre])]
      refine filter_rename_eq rest hlook ?_ ?_
      · intro p hp; exact honly p (List.mem_cons_of_mem _ hp)
      · rw [List.map_cons, List.nodup_cons] at hnodup
        exact hnodup.2

theorem parseLines_nil : parseLines [] = [] := by decide

theorem rotate_files_filter (files : List (Str × Str)) {now : Datetime} {c : Str}
    (hlook : lookupFile files cacheName = some c)
    (honly : ∀ p ∈ files, p.1 ≠ cacheName → cacheName.isPrefixOf p.1 = false)
    (hnodup : (files.map Prod.fst).Nodup) :
    (writeFile (renameFile files cacheName (archName now)) cacheName []).filter
      (fun p => cacheName.isPrefixOf p.1) = [(archName now, c), (cacheName, [])] := by
  rw [writeFile_append_fresh (renameFile_no_old (cacheName_ne_archName now)),
    List.filter_append, filter_rename_eq files hlook honly hnodup]
  simp [cacheName_isPrefixOf_self]

theorem rotate_eq_of_oversized (now : Datetime) {fs : FS} {c : Str}
    (hlook : lookupFile fs.files cacheName = some c)
    (hsize : sizeBytes c > 5 * 1024 * 1024) :
    rotate_if_oversized now fs =
      FS.mk (writeFile (renameFile fs.files cacheName (archName now)) cacheName [])
        fs.dirExists := by
  simp only [rotate_if_oversized, hlook]
  rw [if_pos hsize]

theorem rotate_eq_of_small (now : Datetime) {fs : FS} {c : Str}
    (hlook : lookupFile fs.files cacheName = some c)
    (hsize : ¬ sizeBytes c > 5 * 1024 * 1024) :
    rotate_if_oversized now fs = fs := by
  simp only [rotate_if_oversized, hlook]
  rw [if_neg hsize]

theorem dirExists_ensure (fs : FS) : (ensure_cache_file fs).dirExists = fs.dirExists := by
  unfold ensure_cache_file
  split <;> rfl

theorem dirExists_append (fs : FS) (c : Str) :
    (append_cache fs c).dirExists = fs.dirExists := rfl

theorem dirExists_rotate (now : Datetime) (fs : FS) :
    (rotate_if_oversized now fs).dirExists = fs.dirExists := by
  unfold rotate_if_oversized
  split
  · rfl
  · split <;> rfl

theorem append_active (fs : FS) (c : Str) :
    lookupFile (append_cache fs c).files cacheName =
      some (((lookupFile fs.files cacheName).getD []) ++ c) :=
  lookupFile_writeFile_self _ _ _

theorem rotate_active_isSome {now : Datetime} {fs : FS}
    (h : (lookupFile fs.files cacheName).isSome = true) :
    (lookupFile (rotate_if_oversized now fs).files cacheName).isSome = true := by
  unfold rotate_if_oversized
  cases hl : lookupFile fs.files cacheName with
  | none => rw [hl] at h; simp at h
  | some content =>
    simp only
    by_cases hs : sizeBytes content > 5 * 1024 * 1024
    · rw [if_pos hs]
      simp [lookupFile_writeFile_self]
    · rw [if_neg hs, hl]
      rfl

/-- C1: the claim says every refresh skips malformed lines and continues.
That is true of the src/co2_samples.py revision (`continue` on a `None`
parse), but the src/check_weather.py revision of `refresh_co2_ppm_cache`
contradicts it: the first line whose comma unpacking raises `ValueError`
hits a `break` that aborts the whole batch.  This theorem evaluates that
loop at a failing input: a blob holding a malformed line followed by a valid
line appends zero samples, although the valid line parses on its own. -/
theorem claim_C1 :
    legacy_refresh_samples (str "garbage\n05/03/2024 14:22:01 (UTC),512") = [] ∧
    legacy_collect [str "05/03/2024 14:22:01 (UTC),512"] =
      [⟨⟨2024, 3, 5, 14, 22, 1, none⟩, ⟨str "512"⟩⟩] :=
  ⟨by decide, by decide⟩

/-- C2 counterexample: a fully valid 2-field legacy line is rejected by
`parse_sample` (the 4-way unpacking raises `ValueError`, handled as `None`),
so the claim that the parser accepts both the 2-field and the 4-field shape
is false on the code. -/
theorem claim_C2_counterexample :
    parse_sample (str "05/03/2024 14:22:01 (UTC),512 ppm") = none := by decide

/-- C2 (amended): `parse_sample` splits on the comma delimiter and accepts
exactly one record shape: any line whose comma split is not exactly 4 fields
(including the 2-field legacy shape) yields a parse failure, and a valid
4-field line parses to a Sample. -/
theorem claim_C2 :
    (∀ l : Str, (splitChar ',' l).length ≠ 4 → parse_sample l = none) ∧
    parse_sample (str "05/03/2024 14:22:01 (UTC),512 ppm,21.4 C,47 rel_humidity") =
      some ⟨⟨2024, 3, 5, 14, 22, 1, some Zone.nyc⟩, ⟨str "512"⟩, ⟨str "21.4"⟩, ⟨str "47"⟩⟩ :=
  ⟨fun _ h => parse_fields_ne_four h, by decide⟩

/-- C2 witness: a 2-field line fails to parse. -/
theorem claim_C2_witness : parse_sample (str "a,b") = none :=
  claim_C2.1 (str "a,b") (by decide)

/-- C3: write-then-read round-trip.  For every valid Sample (America/New_York
anchored, calendar-valid timestamp; float fields carrying a Python float
literal free of separator characters, as every `repr(float)` is), parsing the
exact line the cache writer emits reproduces the Sample: timestamp, CO2,
temperature and humidity values are all preserved. -/
theorem claim_C3 (s : Co2Sample) (hwf : wfSample s) :
    parse_sample (serialize_sample s) = some s :=
  roundtrip_sample s hwf

/-- C3 witness: the concrete sample round-trips. -/
theorem claim_C3_witness :
    wfSample sampleEx ∧ parse_sample (serialize_sample sampleEx) = some sampleEx :=
  ⟨by decide, claim_C3 sampleEx (by decide)⟩

/-- C4 counterexample: reading the cache of an identity whose active segment
file does not exist raises `FileNotFoundError` (the bare `open(cache_file,
'r')` has no handler) instead of returning an empty sequence, so the claim is
false on the code. -/
theorem claim_C4_counterexample :
    get_co2_ppm_cache ⟨[], true⟩ = .error .fileNotFound := rfl

/-- C4 (amended): whenever the active segment file is absent,
`get_co2_ppm_cache` fails with the file-not-found error; it never returns an
empty sequence in that state. -/
theorem claim_C4 (fs : FS) (h : lookupFile fs.files cacheName = none) :
    get_co2_ppm_cache fs = .error .fileNotFound := by
  simp only [get_co2_ppm_cache, h]

/-- C4 witness: a cache directory holding only an unrelated file. -/
theorem claim_C4_witness :
    get_co2_ppm_cache ⟨[(str "unrelated.txt", str "x")], true⟩ = .error .fileNotFound :=
  claim_C4 ⟨[(str "unrelated.txt", str "x")], true⟩ (by decide)

/-- C5 counterexample: an active segment of exactly 5 MiB is "at the
threshold", but the code's strict `>` comparison does not rotate it: the
state is unchanged, the active segment still holds the old non-empty content
and no archival segment appears — contradicting the claim's "at or above the
rotation threshold". -/
theorem claim_C5_counterexample :
    sizeBytes c5exact = 5 * 1024 * 1024 ∧
    rotate_if_oversized nowEx fs5exact = fs5exact ∧
    lookupFile (rotate_if_oversized nowEx fs5exact).files cacheName = some c5exact ∧
    c5exact ≠ [] := by
  have hlen : sizeBytes c5exact = 5 * 1024 * 1024 := List.length_replicate _ _
  have hlook : lookupFile fs5exact.files cacheName = some c5exact := by
    rw [show fs5exact.files = [(cacheName, c5exact)] from rfl, lookupFile_cons, if_pos rfl]
  have hrot : rotate_if_oversized nowEx fs5exact = fs5exact :=
    rotate_eq_of_small nowEx hlook (by rw [hlen]; omega)
  refine ⟨hlen, hrot, ?_, ?_⟩
  · rw [hrot]; exact hlook
  · intro h
    have h2 : sizeBytes c5exact = 0 := by rw [h]; rfl
    rw [hlen] at h2
    omega

/-- C5 (amended): rotation triggers only when the active segment is strictly
larger than 5 MiB.  For such a segment — with the stamped archival name not
already taken and the active segment the only identity-named file — after the
rotation step of refresh the old content is readable from exactly the one
archival segment named with the rotation stamp, the new active segment is
empty, every other file is untouched (no data deleted), and `all_history`
after rotation returns the same sample sequence that `recent` returned
immediately before rotation. -/
theorem claim_C5 (now : Datetime) (fs : FS) (c : Str)
    (hlook : lookupFile fs.files cacheName = some c)
    (hsize : sizeBytes c > 5 * 1024 * 1024)
    (hfresh : lookupFile fs.files (archName now) = none)
    (honly : ∀ p ∈ fs.files, p.1 ≠ cacheName → cacheName.isPrefixOf p.1 = false)
    (hnodup : (fs.files.map Prod.fst).Nodup) :
    lookupFile (rotate_if_oversized now fs).files (archName now) = some c ∧
    lookupFile (rotate_if_oversized now fs).files cacheName = some [] ∧
    (∀ n, n ≠ cacheName → n ≠ archName now →
      lookupFile (rotate_if_oversized now fs).files n = lookupFile fs.files n) ∧
    (∀ p ∈ (rotate_if_oversized now fs).files, cacheName.isPrefixOf p.1 = true →
      p.1 = cacheName ∨ p.1 = archName now) ∧
    get_entire_co2_ppm_cache (rotate_if_oversized now fs) = sortSamples (parseLines c) ∧
    get_co2_ppm_cache fs = .ok (sortSamples (parseLines c)) := by
  have hrot := rotate_eq_of_oversized now hlook hsize
  rw [hrot]
  refine ⟨?_, ?_, ?_, ?_, ?_, ?_⟩
  · show lookupFile (writeFile (renameFile fs.files cacheName (archName now)) cacheName [])
      (archName now) = some c
    rw [lookupFile_writeFile_ne _ _ (Ne.symm (cacheName_ne_archName now)),
      lookupFile_renameFile_new _ hfresh, hlook]
  · exact lookupFile_writeFile_self _ _ _
  · intro n hn1 hn2
    show lookupFile (writeFile (renameFile fs.files cacheName (archName now)) cacheName []) n =
      lookupFile fs.files n
    rw [lookupFile_writeFile_ne _ _ hn1, lookupFile_renameFile_other _ hn1 hn2]
  · intro p hp hpre
    have hp' : p ∈ writeFile (renameFile fs.files cacheName (archName now)) cacheName [] := hp
    rw [writeFile_append_fresh (renameFile_no_old (cacheName_ne_archName now))] at hp'
    rcases List.mem_append.mp hp' with h | h
    · rcases mem_renameFile h with h1 | ⟨h2, h3⟩
      · right; exact h1
      · rw [honly p h2 h3] at hpre
        exact Bool.noConfusion hpre
    · left
      rw [List.mem_singleton.mp h]
  · show sortSamples (((writeFile (renameFile fs.files cacheName (archName now))
        cacheName []).filter (fun p => cacheName.isPrefixOf p.1)).foldr
        (fun p acc => parseLines p.2 ++ acc) []) = sortSamples (parseLines c)
    rw [rotate_files_filter fs.files hlook honly hnodup]
    simp [parseLines_nil]
  · simp only [get_co2_ppm_cache, hlook]

/-- C5 witness: a one-byte-over-threshold active segment rotates as stated. -/
theorem claim_C5_witness :
    lookupFile (rotate_if_oversized nowEx fs5big).files (archName nowEx) = some c5big ∧
    lookupFile (rotate_if_oversized nowEx fs5big).files cacheName = some [] ∧
    get_entire_co2_ppm_cache (rotate_if_oversized nowEx fs5big) =
      sortSamples (parseLines c5big) ∧
    get_co2_ppm_cache fs5big = .ok (sortSamples (parseLines c5big)) := by
  have h := claim_C5 nowEx fs5big c5big
    (by rw [show fs5big.files = [(cacheName, c5big)] from rfl, lookupFile_cons, if_pos rfl])
    (by rw [show sizeBytes c5big = 5 * 1024 * 1024 + 1 from List.length_replicate _ _]; omega)
    (by rw [show fs5big.files = [(cacheName, c5big)] from rfl, lookupFile_cons,
      if_neg (cacheName_ne_archName nowEx)]; rfl)
    (by intro p hp hne
        rw [show fs5big.files = [(cacheName, c5big)] from rfl] at hp
        have he := List.mem_singleton.mp hp
        rw [he] at hne
        exact absurd rfl hne)
    (by rw [show fs5big.files.map Prod.fst = [cacheName] from rfl]; simp)
  exact ⟨h.1, h.2.1, h.2.2.2.2.1, h.2.2.2.2.2⟩

/-- C6: `get_entire_co2_ppm_cache` returns a permutation (no deduplication,
nothing dropped) of the concatenation, in directory-listing order, of the
parsed samples of every file whose name starts with the identity — archival
segments and the active segment — sorted ascending by timestamp; and on the
concrete example of two archival segments holding hours [10, 12] and
[11, 13] plus an active segment holding hour 14, the merged result is
exactly [10, 11, 12, 13, 14] in that order. -/
theorem claim_C6 :
    (∀ fs : FS,
      (get_entire_co2_ppm_cache fs).Perm
        ((fs.files.filter fun p => cacheName.isPrefixOf p.1).foldr
          (fun p acc => parseLines p.2 ++ acc) []) ∧
      (get_entire_co2_ppm_cache fs).Pairwise
        (fun a b => dtLe a.timestamp b.timestamp = true)) ∧
    get_entire_co2_ppm_cache c6fs =
      [c6sample 10, c6sample 11, c6sample 12, c6sample 13, c6sample 14] :=
  ⟨fun _ => ⟨sortSamples_perm _, sortSamples_sorted _⟩, by decide⟩

/-- C7 counterexample: a line whose temperature unit token is "KELVIN" (not
"C") and whose humidity unit token is "bananas" (not "rel_humidity") parses
successfully — `parse_sample` binds those unit tokens to `_` and never checks
them — so the claim that a mismatch in any field's unit fails the parse is
false on the code. -/
theorem claim_C7_counterexample :
    parse_sample (str "05/03/2024 14:22:01 (EST),512 ppm,21.4 KELVIN,47 bananas") =
      some ⟨⟨2024, 3, 5, 14, 22, 1, some Zone.nyc⟩, ⟨str "512"⟩, ⟨str "21.4"⟩, ⟨str "47"⟩⟩ := by
  decide

/-- C7 (amended): each numeric field is split from its trailing unit token,
but only the CO2 field's token is validated: whenever that token differs from
"ppm" the whole line fails to parse.  The temperature and humidity unit
tokens are stripped and ignored (see the counterexample). -/
theorem claim_C7 (l ts f2 f3 f4 v u : Str)
    (hs : splitChar ',' l = [ts, f2, f3, f4])
    (h2 : splitChar ' ' (pyStrip f2) = [v, u]) (hu : u ≠ str "ppm") :
    parse_sample l = none :=
  parse_bad_unit hs h2 hu

/-- C7 witness: a wrong CO2 unit token fails the parse. -/
theorem claim_C7_witness :
    parse_sample (str "05/03/2024 14:22:01 (EST),512 grams,21.4 C,47 rel_humidity") = none :=
  claim_C7 (str "05/03/2024 14:22:01 (EST),512 grams,21.4 C,47 rel_humidity")
    (str "05/03/2024 14:22:01 (EST)") (str "512 grams") (str "21.4 C")
    (str "47 rel_humidity") (str "512") (str "grams") (by decide) (by decide) (by decide)

/-- C8: `parse_sample` is total by construction (type `Str → Option
Co2Sample`; every `ValueError` path of the source returns `None`), and each
failure family of the claim yields a failure value rather than a fault:
blank or whitespace-only lines, any comma field count other than 4, a
mismatched CO2 unit token, and a timestamp that does not parse. -/
theorem claim_C8 :
    (∀ l : Str, (∀ c ∈ l, pySpace c = true) → parse_sample l = none) ∧
    (∀ l : Str, (splitChar ',' l).length ≠ 4 → parse_sample l = none) ∧
    (∀ l ts f2 f3 f4 v u : Str, splitChar ',' l = [ts, f2, f3, f4] →
      splitChar ' ' (pyStrip f2) = [v, u] → u ≠ str "ppm" → parse_sample l = none) ∧
    (∀ l ts f2 f3 f4 : Str, splitChar ',' l = [ts, f2, f3, f4] →
      strptimeDMYHMS ts = none → parse_sample l = none) :=
  ⟨fun _ h => parse_whitespace h, fun _ h => parse_fields_ne_four h,
   fun _ _ _ _ _ _ _ hs h2 hu => parse_bad_unit hs h2 hu,
   fun _ _ _ _ _ hs ht => parse_bad_timestamp hs ht⟩

/-- C8 witness: one concrete input per failure family. -/
theorem claim_C8_witness :
    parse_sample (str "   ") = none ∧ parse_sample (str "a,b") = none ∧
    parse_sample (str "t,1 units,2 C,3 rel_humidity") = none ∧
    parse_sample (str "BAD,1 ppm,2 C,3 rel_humidity") = none :=
  ⟨claim_C8.1 (str "   ") (by decide),
   claim_C8.2.1 (str "a,b") (by decide),
   claim_C8.2.2.1 (str "t,1 units,2 C,3 rel_humidity") (str "t") (str "1 units") (str "2 C")
     (str "3 rel_humidity") (str "1") (str "units") (by decide) (by decide) (by decide),
   claim_C8.2.2.2 (str "BAD,1 ppm,2 C,3 rel_humidity") (str "BAD") (str "1 ppm") (str "2 C")
     (str "3 rel_humidity") (by decide) (by decide)⟩

/-- C9 counterexample: the src/check_weather.py refresh parses a valid line
with a bare `strptime` and appends the sample with no timezone anchoring, so
a timezone-naive timestamp (tz = none) crosses the parser boundary into the
samples that are then written to storage — the claim is false for that
revision of the program. -/
theorem claim_C9_counterexample :
    (legacy_collect [str "05/03/2024 14:22:01 (UTC),512"]).map (fun s => s.timestamp.tz) =
      [none] := by decide

/-- C9 (amended): every Sample produced by `parse_sample` of
src/co2_samples.py has its timestamp anchored to America/New_York (the
`replace(tzinfo=...)` call), regardless of the zone abbreviation carried by
the input line; the legacy check_weather.py parser, however, does not anchor
(see the counterexample). -/
theorem claim_C9 (l : Str) (s : Co2Sample) (h : parse_sample l = some s) :
    s.timestamp.tz = some Zone.nyc := by
  unfold parse_sample at h
  repeat
    split at h <;> try exact Option.noConfusion h
  have hs := Option.some.inj h
  subst hs
  rfl

/-- C9 witness: the sample parsed from a UTC-labelled line is NYC-anchored. -/
theorem claim_C9_witness :
    (⟨⟨2024, 3, 5, 14, 22, 1, some Zone.nyc⟩, ⟨str "512"⟩, ⟨str "21.4"⟩,
      ⟨str "47"⟩⟩ : Co2Sample).timestamp.tz = some Zone.nyc :=
  claim_C9 (str "05/03/2024 14:22:01 (UTC),512 ppm,21.4 C,47 rel_humidity") _ (by decide)

/-- C10: after any refresh of src/co2_samples.py whose fetch succeeded, the
cache directory exists and an active segment file exists; and if the active
segment was absent and no line of the fetched blob parsed, the refresh still
leaves an empty active segment in place. -/
theorem claim_C10 (now : Datetime) (blob : Str) (fs : FS) :
    (refresh_with_blob now blob fs).dirExists = true ∧
    (lookupFile (refresh_with_blob now blob fs).files cacheName).isSome = true ∧
    ((lookupFile fs.files cacheName = none ∧
      (splitChar '\n' blob).filterMap (fun l => parse_sample (pyStrip l)) = []) →
      lookupFile (refresh_with_blob now blob fs).files cacheName = some []) := by
  unfold refresh_with_blob
  refine ⟨?_, ?_, ?_⟩
  · rw [dirExists_rotate, dirExists_append, dirExists_ensure]
  · exact rotate_active_isSome (by rw [append_active]; rfl)
  · rintro ⟨hnone, hempty⟩
    rw [hempty]
    have h1 : lookupFile ({ fs with dirExists := true } : FS).files cacheName = none := hnone
    have h2 : ensure_cache_file { fs with dirExists := true } =
        FS.mk (writeFile fs.files cacheName []) true := by
      unfold ensure_cache_file
      rw [h1]
      rfl
    rw [h2]
    have h3 : lookupFile (FS.mk (writeFile fs.files cacheName []) true).files cacheName =
        some [] := lookupFile_writeFile_self _ _ _
    have h4 : append_cache (FS.mk (writeFile fs.files cacheName []) true) (serializeAll []) =
        FS.mk (writeFile (writeFile fs.files cacheName []) cacheName []) true := by
      unfold append_cache
      rw [h3]
      rfl
    rw [h4]
    have h5 : lookupFile (writeFile (writeFile fs.files cacheName []) cacheName [])
        cacheName = some [] := lookupFile_writeFile_self _ _ _
    rw [rotate_eq_of_small now h5 (by decide)]
    exact h5

/-- C10 witness: an all-garbage blob over an absent active segment on a fresh
directory still leaves an empty active segment. -/
theorem claim_C10_witness :
    ((refresh_with_blob nowEx (str "garbage") (FS.mk [] false)).dirExists = true) ∧
    lookupFile (refresh_with_blob nowEx (str "garbage") (FS.mk [] false)).files cacheName =
      some [] :=
  ⟨(claim_C10 nowEx (str "garbage") (FS.mk [] false)).1,
   (claim_C10 nowEx (str "garbage") (FS.mk [] false)).2.2 ⟨rfl, by decide⟩⟩
